import Mathlib

/-!
Shallow embedding of the server core of `realtime-canvas`
(`src/server/index.js`), a tile-indexed stroke store with a live relay,
together with proofs settling the frozen claims about its specification.

Modelling conventions, used throughout:

- JavaScript numbers are modelled as `JNum`: an exact rational together
  with the three non-finite values `NaN`, `Infinity`, `-Infinity`.
  Binary floating point rounding is below the abstraction level of every
  claim (each claim is stated over exact arithmetic).
- JSON values are modelled by the inductive `Json`.  JavaScript property
  access `v.f` throws a `TypeError` when `v` is `null`; this is modelled
  by `jsGetField` returning in `Except Unit`.  An absent property
  (JavaScript `undefined`) is modelled by `Option.none`.
- The SQLite table `tile_strokes` is modelled as a `List Row` in
  insertion (rowid) order.  The gzip compression of the stroke JSON is
  modelled as the identity on the stroke record (gzip round-trips), with
  the length in bytes of the compressed blob kept abstract as a field
  `bytes` of the stroke, since the exact gzip output length is data the
  model cannot compute.
- Effects that the server obtains from the environment (fresh UUIDs from
  `crypto.randomUUID()`, the clock `Date.now()`, success or failure of
  the SQLite transaction) are passed as explicit parameters.
-/

/-- A JavaScript number: a finite rational or one of `NaN`, `Infinity`,
`-Infinity`. -/
inductive JNum where
  | fin (q : ℚ)
  | nan
  | inf
  | ninf
deriving DecidableEq, Repr

/-- Number.isFinite. -/
def JNum.isFiniteNum : JNum → Bool
  | .fin _ => true
  | _ => false

/-- JavaScript truthiness of a number: `0` and `NaN` are falsy. -/
def JNum.truthy : JNum → Bool
  | .fin q => decide (q ≠ 0)
  | .nan => false
  | _ => true

/-- The JavaScript idiom `v || d` for a number `v` and finite default
`d`: falsy (`0`, `NaN`) values are replaced by the default. -/
def jnumOr (v : JNum) (d : ℚ) : JNum :=
  if v.truthy then v else .fin d

/-- The source helper `clamp(n, a, b) = Math.max(a, Math.min(b, n))` on
finite rationals (`src/server/index.js` line 44). -/
def clampQ (n a b : ℚ) : ℚ := max a (min b n)

/-- The source helper `clamp` at full JavaScript number semantics:
`Math.min` and `Math.max` propagate `NaN` and absorb infinities. -/
def jsClamp (v : JNum) (lo hi : ℚ) : JNum :=
  match v with
  | .nan => .nan
  | .inf => .fin hi
  | .ninf => .fin lo
  | .fin q => .fin (clampQ q lo hi)

/-- Canonical brush size: `clamp(Number(size) || 12, 1, 128)` from the
two stroke canonicalization sites (lines 155 and 222).  Because the
`|| 12` default removes `NaN` and `0`, the clamp always produces a
finite value; the final match arm is unreachable and returns the
default. -/
def canonSize (v : JNum) : ℚ :=
  match jsClamp (jnumOr v 12) 1 128 with
  | .fin q => q
  | _ => 12

/-- Canonical opacity: `clamp(Number(opacity) || 1, 0, 1)`. -/
def canonOpacity (v : JNum) : ℚ :=
  match jsClamp (jnumOr v 1) 0 1 with
  | .fin q => q
  | _ => 1

/-- A canonical stroke point `p => (x: Number(p.x), y: Number(p.y),
p: Number(p.p || 0))`.  Non-finite coordinates are representable: the
canonicalization in the source keeps them. -/
structure Point where
  x : JNum
  y : JNum
  p : JNum
deriving DecidableEq, Repr

/-- A canonical stroke as built by the two message handlers.  `size` and
`opacity` are finite after clamping, hence plain rationals.  `bytes` is
the length of `Bun.gzipSync(JSON.stringify(stroke))`, kept abstract (see
the module comment). -/
structure Stroke where
  id : String
  userId : String
  color : String
  size : ℚ
  opacity : ℚ
  points : List Point
  z : JNum
  t : ℤ
  erase : Bool
  bytes : ℕ
deriving DecidableEq, Repr

/-- A persisted row of the `tile_strokes` table: `(z, tx, ty, t, id,
json)`.  `stroke` stands for the gzip-compressed canonical JSON payload
(modelled up to the gzip/JSON round-trip), `bytes` for its length. -/
structure Row where
  z : JNum
  tx : ℤ
  ty : ℤ
  t : ℤ
  id : String
  bytes : ℕ
  stroke : Stroke
deriving DecidableEq, Repr

/-- TILE_SIZE (line 12). -/
def TILE_SIZE : ℚ := 1024

/-- MAX_DB_SIZE_BYTES = 1 GiB (line 37). -/
def MAX_DB_SIZE_BYTES : ℕ := 1 * 1024 * 1024 * 1024

/-- Total store size in bytes, the model of
`pragma_page_count() * pragma_page_size()`: the sum of the persisted
payload sizes. -/
def totalBytes (db : List Row) : ℕ := (db.map Row.bytes).sum

/-- Smallest timestamp present in the store, used to model the
`ORDER BY t ASC LIMIT ?` selection of `deleteOldestStrokesStmt`. -/
def minT : List Row → Option ℤ
  | [] => none
  | r :: rs =>
    match minT rs with
    | none => some r.t
    | some m => some (min r.t m)

/-- Deletion of a single globally oldest row: the first row (in rowid
order) carrying the minimal timestamp.  Iterated by `deleteOldest`; the
first-in-insertion-order choice is the deterministic tiebreak of the
`rowid` scan. -/
def removeOldestOne (db : List Row) : List Row :=
  match minT db with
  | none => db
  | some m => db.eraseP (fun r => r.t == m)

/-- The row removed by `removeOldestOne`, when one exists. -/
def oldestRow (db : List Row) : Option Row :=
  match minT db with
  | none => none
  | some m => db.find? (fun r => r.t == m)

/-- Model of `deleteOldestStrokesStmt.run n` (line 38): delete the `n`
rows that come first in `(t, rowid)` order, realised as `n` repeated
removals of the current oldest row. -/
def deleteOldest (db : List Row) : ℕ → List Row
  | 0 => db
  | n + 1 => deleteOldest (removeOldestOne db) n

/-- The rows deleted by `deleteOldest`, in the order of removal. -/
def oldestVictims (db : List Row) : ℕ → List Row
  | 0 => []
  | n + 1 =>
    match oldestRow db with
    | none => []
    | some v => v :: oldestVictims (removeOldestOne db) n

/-- enforceDbSizeLimit (lines 46-54): when the store size has reached
`MAX_DB_SIZE_BYTES` and the store is non-empty, delete
`Math.max(1, Math.floor(totalStrokes * 0.1))` oldest rows and `VACUUM`.
`Math.floor(n * 0.1)` is modelled as exact `n / 10`; `VACUUM` does not
change the row contents and is a no-op in the model. -/
def enforceDbSizeLimit (db : List Row) : List Row :=
  if MAX_DB_SIZE_BYTES ≤ totalBytes db ∧ 0 < db.length then
    deleteOldest db (max 1 (db.length / 10))
  else db

/-- Interim axis-aligned bounding box over the finite points, as grown
by the loop of bboxOfPoints (line 56). -/
structure BBox where
  minX : ℚ
  minY : ℚ
  maxX : ℚ
  maxY : ℚ
deriving DecidableEq, Repr

/-- One step of the bbox loop body for a point with finite coordinates. -/
def bboxMerge (bb : Option BBox) (x y : ℚ) : Option BBox :=
  match bb with
  | none => some ⟨x, y, x, y⟩
  | some b => some ⟨min b.minX x, min b.minY y, max b.maxX x, max b.maxY y⟩

/-- bboxOfPoints (line 56): fold over the points, skipping any point
whose `x` or `y` is not finite; `none` corresponds to the `Infinity`
sentinels never being replaced and the function returning `null`. -/
def bboxOfPoints : List Point → Option BBox → Option BBox
  | [], bb => bb
  | pt :: rest, bb =>
    match pt.x, pt.y with
    | .fin x, .fin y => bboxOfPoints rest (bboxMerge bb x y)
    | _, _ => bboxOfPoints rest bb

/-- The inclusive integer range `[a, b]` as a list, modelling
`for (let i = a; i <= b; i++)`. -/
def intRange (a b : ℤ) : List ℤ :=
  (List.range (b + 1 - a).toNat).map (fun i : ℕ => a + (i : ℤ))

/-- Result of appendStrokeToTiles: the list of tiles returned to the
caller, and the store after the call. -/
structure AppendResult where
  tiles : List (ℤ × ℤ)
  db : List Row
deriving DecidableEq, Repr

/-- Timestamp selection `Number(stroke.t) || Date.now()` (line 66): the
canonical `t` is an integer; `0` is falsy and falls back to the clock. -/
def tValOf (t now : ℤ) : ℤ := if t = 0 then now else t

/-- Padding `clamp(Number(stroke.size) || 12, 1, 128) * 2` (line 61) for
a canonical (finite) size. -/
def paddingOf (size : ℚ) : ℚ := clampQ (if size = 0 then 12 else size) 1 128 * 2

/-- appendStrokeToTiles (lines 58-70).  `insertOk` models whether the
SQLite transaction `txInsert` succeeds; on failure the exception is
caught, a warning is logged, and the tile list is returned unchanged.
`now` models `Date.now()` in the `tVal` fallback.  The nested loops run
`ty` outermost, `tx` innermost, pushing `(tx, ty)`. -/
def appendStrokeToTiles (db : List Row) (stroke : Stroke) (insertOk : Bool)
    (now : ℤ) : AppendResult :=
  match bboxOfPoints stroke.points none with
  | none => ⟨[], db⟩
  | some bb =>
    let db1 := enforceDbSizeLimit db
    let padding := paddingOf stroke.size
    let tx0 := ⌊(bb.minX - padding) / TILE_SIZE⌋
    let ty0 := ⌊(bb.minY - padding) / TILE_SIZE⌋
    let tx1 := ⌊(bb.maxX + padding - 1) / TILE_SIZE⌋
    let ty1 := ⌊(bb.maxY + padding - 1) / TILE_SIZE⌋
    let tiles := (intRange ty0 ty1).flatMap
      (fun ty => (intRange tx0 tx1).map (fun tx => (tx, ty)))
    let tVal := tValOf stroke.t now
    let rows := tiles.map (fun tile =>
      ({ z := stroke.z, tx := tile.1, ty := tile.2, t := tVal,
         id := stroke.id, bytes := stroke.bytes, stroke := stroke } : Row))
    ⟨tiles, if insertOk then db1 ++ rows else db1⟩

/-- Ordering of rows by timestamp, the `ORDER BY t ASC` key of the two
tile SELECT statements. -/
def rowLE (a b : Row) : Prop := a.t ≤ b.t

instance : DecidableRel rowLE := fun a b => inferInstanceAs (Decidable (a.t ≤ b.t))

instance : IsTotal Row rowLE := ⟨fun a b => le_total a.t b.t⟩

instance : IsTrans Row rowLE := ⟨fun _ _ _ h1 h2 => le_trans h1 h2⟩

/-- The rows of one tile, in insertion (rowid) order: the `WHERE z=? AND
tx=? AND ty=?` filter of `selectTileAllStmt` (line 34).  Tile
coordinates arriving over HTTP or the channel are arbitrary finite
numbers, hence rational; they match only the integer-coordinate rows
produced by ingest. -/
def tileRows (db : List Row) (z : JNum) (tx ty : ℚ) : List Row :=
  db.filter (fun r => r.z == z && ((r.tx : ℚ) == tx) && ((r.ty : ℚ) == ty))

/-- scan (selectTileAllStmt, line 34): the tile rows ordered by `t`
ascending.  A stable sort models the index scan in `(t, rowid)` order. -/
def scan (db : List Row) (z : JNum) (tx ty : ℚ) : List Row :=
  List.insertionSort rowLE (tileRows db z tx ty)

/-- scan_since (selectTileSinceStmt, line 35): the tile rows with
`t > t0`, ordered by `t` ascending. -/
def scanSince (db : List Row) (z : JNum) (tx ty : ℚ) (t0 : ℤ) : List Row :=
  List.insertionSort rowLE
    ((tileRows db z tx ty).filter (fun r => t0 < r.t))

/-- readTileStrokes (lines 72-85): decompress and parse each selected
row (the gzip/JSON round-trip is the identity in the model). -/
def readTileStrokes (db : List Row) (z : JNum) (tx ty : ℚ)
    (sinceTs : Option ℤ) : List Stroke :=
  match sinceTs with
  | some t0 => (scanSince db z tx ty t0).map Row.stroke
  | none => (scan db z tx ty).map Row.stroke

/-- A JSON value as produced by a successful `req.json()` /
`JSON.parse`.  JSON numbers are finite. -/
inductive Json where
  | null
  | bool (b : Bool)
  | num (q : ℚ)
  | str (s : String)
  | arr (elems : List Json)
  | obj (fields : List (String × Json))

/-- Whether a JSON value is the literal `null`. -/
def Json.isNull : Json → Bool
  | .null => true
  | _ => false

/-- JavaScript truthiness of a JSON value. -/
def Json.truthy : Json → Bool
  | .null => false
  | .bool b => b
  | .num q => decide (q ≠ 0)
  | .str s => decide (s ≠ "")
  | .arr _ => true
  | .obj _ => true

/-- Property lookup on a JSON value, ignoring the `null` `TypeError`
(that is handled by `jsGetField`); `none` is JavaScript `undefined`. -/
def jsObjGet (j : Json) (key : String) : Option Json :=
  match j with
  | .obj fields => (fields.find? (fun f => f.1 == key)).map (fun f => f.2)
  | _ => none

/-- JavaScript property access `j.key`: throws a `TypeError` when the
receiver is `null` (surfacing as the catch-all 400 response in the
stroke endpoint), otherwise yields the property or `undefined`. -/
def jsGetField (j : Json) (key : String) : Except Unit (Option Json) :=
  if j.isNull then .error () else .ok (jsObjGet j key)

/-- The JavaScript `Number(v)` coercion on a property value (`none` is
`undefined`).  String conversion is modelled for the empty and the
plain-digit cases; the full JavaScript numeric-literal grammar (signs,
decimals, exponents, hex, whitespace) and the array-to-primitive
chain are richer, but no verified property depends on a string or
array numeric conversion. -/
def jsToNumber : Option Json → JNum
  | none => .nan
  | some .null => .fin 0
  | some (.bool b) => .fin (if b then 1 else 0)
  | some (.num q) => .fin q
  | some (.str s) =>
      if s = "" then .fin 0
      else match s.toNat? with
        | some n => .fin n
        | none => .nan
  | some (.arr []) => .fin 0
  | some (.arr _) => .nan
  | some (.obj _) => .nan

/-- The JavaScript `String(v)` coercion used for the stroke id.  Number,
array and object rendering is abbreviated (no verified property depends
on the rendering of a non-string id). -/
def jsonIdString : Json → String
  | .str s => s
  | .null => "null"
  | .bool b => if b then "true" else "false"
  | .num q => toString q
  | .arr _ => ""
  | .obj _ => "[object Object]"

/-- The JavaScript idiom `v || d` on a property value. -/
def jsTruthyOr (v : Option Json) (d : Json) : Json :=
  match v with
  | some j => if j.truthy then j else d
  | none => d

/-- The JavaScript idiom `v ?? d` (nullish coalescing) on a property
value. -/
def jsNullishOr (v : Option Json) (d : Json) : Json :=
  match v with
  | some .null => d
  | some j => j
  | none => d

/-- Canonicalization of one raw point,
`p => ({ x: Number(p.x), y: Number(p.y), p: Number(p.p || 0) })`
(line 155), total version used once the element is known not to be
`null`. -/
def canonPointFn (p : Json) : Point :=
  { x := jsToNumber (jsObjGet p "x"),
    y := jsToNumber (jsObjGet p "y"),
    p := jsToNumber (some (jsTruthyOr (jsObjGet p "p") (.num 0))) }

/-- Canonicalization of one raw point with the JavaScript `TypeError` on
`null` elements made explicit: the three property accesses `p.x`, `p.y`,
`p.p` share the receiver, so the map body throws exactly when the
element is `null`. -/
def canonPoint (p : Json) : Except Unit Point :=
  if p.isNull then .error () else .ok (canonPointFn p)

/-- The raw points list: `Array.isArray(json.points) ? json.points.map(...) : []`. -/
def canonPoints (v : Option Json) : Except Unit (List Point) :=
  match v with
  | some (.arr l) => l.mapM canonPoint
  | _ => pure []

/-- Total companion of `canonPoints`, valid when no element is `null`. -/
def canonPointsFn (v : Option Json) : List Point :=
  match v with
  | some (.arr l) => l.map canonPointFn
  | _ => []

/-- Canonicalization of a stroke submitted over HTTP POST /api/stroke
(line 155), with the property accesses that can throw on a `null`
receiver made explicit.  `freshId` models `crypto.randomUUID()`, `now`
models `Date.now()` (the server always overrides `t`), `bytes` the
length of the compressed payload.  The `String(...)` coercion of the id
is applied here rather than at insertion time; the claims never inspect
a non-string raw id. -/
def canonicalizeStroke (j : Json) (freshId : String) (now : ℤ) (bytes : ℕ) :
    Except Unit Stroke :=
  match jsGetField j "id", jsGetField j "userId", jsGetField j "color",
      jsGetField j "size", jsGetField j "opacity", jsGetField j "points",
      jsGetField j "z", jsGetField j "erase" with
  | .ok idv, .ok useridv, .ok colorv, .ok sizev, .ok opacityv, .ok pointsv,
      .ok zv, .ok erasev =>
    match canonPoints pointsv with
    | .error e => .error e
    | .ok pts =>
      .ok
        { id := match idv with
            | some v => if v.truthy then jsonIdString v else freshId
            | none => freshId
          userId := jsonIdString (jsTruthyOr useridv (.str ""))
          color := jsonIdString (jsTruthyOr colorv (.str "#000000"))
          size := canonSize (jsToNumber sizev)
          opacity := canonOpacity (jsToNumber opacityv)
          points := pts
          z := jsToNumber (some (jsNullishOr zv (.num 0)))
          t := now
          erase := (jsTruthyOr erasev (.bool false)).truthy
          bytes := bytes }
  | _, _, _, _, _, _, _, _ => .error ()

/-- Total companion of `canonicalizeStroke`, valid when the body is not
`null` and no point element is `null`. -/
def canonStrokeFn (j : Json) (freshId : String) (now : ℤ) (bytes : ℕ) : Stroke :=
  { id := match jsObjGet j "id" with
      | some v => if v.truthy then jsonIdString v else freshId
      | none => freshId
    userId := jsonIdString (jsTruthyOr (jsObjGet j "userId") (.str ""))
    color := jsonIdString (jsTruthyOr (jsObjGet j "color") (.str "#000000"))
    size := canonSize (jsToNumber (jsObjGet j "size"))
    opacity := canonOpacity (jsToNumber (jsObjGet j "opacity"))
    points := canonPointsFn (jsObjGet j "points")
    z := jsToNumber (some (jsNullishOr (jsObjGet j "z") (.num 0)))
    t := now
    erase := (jsTruthyOr (jsObjGet j "erase") (.bool false)).truthy
    bytes := bytes }

/-- Response of POST /api/stroke: `{ok: true, id, t}` with status 200,
or `{error: "invalid json"}` with status 400. -/
inductive StrokeResp where
  | success (id : String) (t : ℤ)
  | badRequest
deriving DecidableEq, Repr

/-- HTTP status of a stroke response. -/
def StrokeResp.status : StrokeResp → ℕ
  | .success _ _ => 200
  | .badRequest => 400

/-- Whether the response body carries `ok: true`. -/
def StrokeResp.okFlag : StrokeResp → Bool
  | .success _ _ => true
  | .badRequest => false

/-- The POST /api/stroke handler (lines 152-159).  `body` is the result
of `req.json()` (`none` on a JSON parse failure, which is caught and
answered with 400).  A `TypeError` thrown by the canonicalization is
caught by the same catch.  `appendStrokeToTiles` is called inside its
own try/catch whose failure is ignored; the response is built from the
canonical stroke regardless. -/
def strokeEndpoint (body : Option Json) (freshId : String) (now : ℤ)
    (bytes : ℕ) (db : List Row) (insertOk : Bool) : StrokeResp × List Row :=
  match body with
  | none => (.badRequest, db)
  | some j =>
    match canonicalizeStroke j freshId now bytes with
    | .error _ => (.badRequest, db)
    | .ok stroke =>
      let r := appendStrokeToTiles db stroke insertOk now
      (.success stroke.id stroke.t, r.db)

/-- Role of an identified channel session (`ws.data.role`). -/
inductive Role where
  | peer
  | tiles
deriving DecidableEq, Repr

/-- broadcastArray (line 92): the recipients of one broadcast are every
entry of the `clients` map (identified peer sessions, keyed by their
server-minted session id) whose key differs from `excludeId`; a falsy
`excludeId` (modelled by `none`) disables the exclusion. -/
def broadcastRecipients (clients : List String) (excludeId : Option String) :
    List String :=
  clients.filter (fun cid =>
    match excludeId with
    | some e => cid != e
    | none => true)

/-- The payload of a stroke frame on a peer channel, as decoded from
the compact array `[2, id, userId, color, size, opacity, erase,
ptsFlat]` (lines 183-190): `none` fields model absent or falsy values.
Point coordinates are modelled after the `Number(...)` coercion. -/
structure StrokePayload where
  id : Option String
  userId : Option String
  color : Option String
  size : JNum
  opacity : JNum
  erase : Bool
  points : List (JNum × JNum)
deriving DecidableEq, Repr

/-- Canonicalization of a peer-channel stroke (line 222): identical to
the HTTP canonicalization except that `userId` falls back to the sender
session id, `z` is forced to `Z = 0`, and the compact points carry no
pressure (`p.p` is `undefined`, so `Number(p.p || 0) = 0`). -/
def canonPayloadStroke (payload : StrokePayload) (senderSid : String)
    (freshId : String) (now : ℤ) (bytes : ℕ) : Stroke :=
  { id := payload.id.getD freshId
    userId := payload.userId.getD senderSid
    color := payload.color.getD "#000"
    size := canonSize payload.size
    opacity := canonOpacity payload.opacity
    points := payload.points.map (fun q => ⟨q.1, q.2, .fin 0⟩)
    z := .fin 0
    t := now
    erase := payload.erase
    bytes := bytes }

/-- Result of handling one peer stroke frame (lines 220-226): the tile
list computed by the ingest, the store afterwards, and the session ids
that are sent the rebroadcast stroke frame. -/
structure WsStrokeResult where
  tiles : List (ℤ × ℤ)
  db : List Row
  recipients : List String
deriving DecidableEq, Repr

/-- The peer-channel stroke branch (lines 220-226): canonicalize, ingest
via appendStrokeToTiles (failures swallowed), then broadcast the compact
stroke frame, passing `payload.id` — the client-supplied stroke id — as
the `excludeId` of `broadcastArray`. -/
def wsStroke (db : List Row) (clients : List String) (senderSid : String)
    (payload : StrokePayload) (now : ℤ) (freshId : String) (bytes : ℕ)
    (insertOk : Bool) : WsStrokeResult :=
  let stroke := canonPayloadStroke payload senderSid freshId now bytes
  let r := appendStrokeToTiles db stroke insertOk now
  { tiles := r.tiles
    db := r.db
    recipients := broadcastRecipients clients payload.id }

/-- The compact stroke encoding sent inside a tileData frame (line 244):
`[s.id, s.userId || "", s.color || "#000", s.size || 4, s.opacity || 1,
s.erase ? 1 : 0, ptsFlat]`. -/
structure CompactStroke where
  id : String
  userId : String
  color : String
  size : ℚ
  opacity : ℚ
  erase : Bool
  ptsFlat : List JNum
deriving DecidableEq, Repr

/-- Compact encoding of a stored stroke for a tileData frame. -/
def compactOf (s : Stroke) : CompactStroke :=
  { id := s.id
    userId := if s.userId = "" then "" else s.userId
    color := if s.color = "" then "#000" else s.color
    size := if s.size = 0 then 4 else s.size
    opacity := if s.opacity = 0 then 1 else s.opacity
    erase := s.erase
    ptsFlat := s.points.flatMap (fun p => [p.x, p.y]) }

/-- An outbound channel frame relevant to the tiles service: opcode 4
(tileData) or opcode 6 (tileBatchDone). -/
inductive WsFrame where
  | tileData (reqId : Option String) (z : JNum) (tx ty : ℚ)
      (strokes : List CompactStroke)
  | tileBatchDone (reqId : Option String)
deriving DecidableEq, Repr

/-- The tilesRequest branch (lines 227-249).  Accepted only from
sessions identified as tiles; an empty or over-cap (`> 1000`) tile list
yields only a tileBatchDone frame; otherwise each tile with finite
coordinates yields one tileData frame in request order, followed by one
tileBatchDone. -/
def wsTilesRequest (db : List Row) (role : Option Role)
    (reqId : Option String) (z : JNum) (tiles : List (JNum × JNum)) :
    List WsFrame :=
  if role ≠ some Role.tiles then []
  else if tiles.length = 0 then [.tileBatchDone reqId]
  else if tiles.length > 1000 then [.tileBatchDone reqId]
  else
    (tiles.filterMap (fun tile =>
      match tile.1, tile.2 with
      | .fin qx, .fin qy =>
          some (.tileData reqId z qx qy
            ((readTileStrokes db z qx qy none).map compactOf))
      | _, _ => none)) ++ [.tileBatchDone reqId]

/-- One entry of the POST /api/tile-strokes-batch response. -/
structure TileOut where
  z : JNum
  tx : ℚ
  ty : ℚ
  strokes : List Stroke
deriving DecidableEq, Repr

/-- Response of POST /api/tile-strokes-batch. -/
inductive BatchResp where
  | ok (tiles : List TileOut)
  | badRequest
deriving DecidableEq, Repr

/-- HTTP status of a batch response. -/
def BatchResp.status : BatchResp → ℕ
  | .ok _ => 200
  | .badRequest => 400

/-- The POST /api/tile-strokes-batch handler (lines 132-150), after
body parsing: an empty tile list answers with an empty result, a list
longer than `MAX_BATCH = 500` answers 400, otherwise tiles with finite
coordinates are read in request order and non-finite entries skipped. -/
def tileBatchEndpoint (db : List Row) (z : JNum)
    (tiles : List (JNum × JNum)) : BatchResp :=
  if tiles.length = 0 then .ok []
  else if tiles.length > 500 then .badRequest
  else .ok (tiles.filterMap (fun tile =>
    match tile.1, tile.2 with
    | .fin qx, .fin qy =>
        some ⟨z, qx, qy, readTileStrokes db z qx qy none⟩
    | _, _ => none))

/-- A minimal stroke payload record used to populate concrete store
states for the eviction claims. -/
def evictionProbeStroke : Stroke :=
  { id := "", userId := "", color := "", size := 1, opacity := 1, points := [],
    z := .fin 0, t := 0, erase := false, bytes := 0 }

/-- A store of 15 rows of 128 MiB each (total 1920 MiB, above the 1 GiB
limit) with timestamps 0..14. -/
def evictionProbeDb : List Row :=
  (List.range 15).map (fun i =>
    { z := .fin 0, tx := 0, ty := 0, t := (i : ℤ), id := "",
      bytes := 134217728, stroke := evictionProbeStroke })

/-- A store of 2 rows of 512 MiB each, exactly at the 1 GiB limit. -/
def evictionWitnessDb : List Row :=
  [{ z := .fin 0, tx := 0, ty := 0, t := 0, id := "", bytes := 536870912,
     stroke := evictionProbeStroke },
   { z := .fin 0, tx := 0, ty := 0, t := 1, id := "", bytes := 536870912,
     stroke := evictionProbeStroke }]

/-- A stroke whose compressed payload alone exceeds the 1 GiB limit. -/
def oversizeStroke : Stroke :=
  { id := "big", userId := "", color := "#000", size := 12, opacity := 1,
    points := [⟨.fin 0, .fin 0, .fin 0⟩], z := .fin 0, t := 1, erase := false,
    bytes := 1073741825 }

/-- Whether the raw points array (if it is an array) contains no `null`
element -- the only element shape whose canonicalization throws. -/
def pointsSafeB (j : Json) : Bool :=
  match jsObjGet j "points" with
  | some (.arr l) => l.all (fun p => !p.isNull)
  | _ => true

/-- Whether the canonical points carry no point with finite x and y. -/
def pointsNoFiniteB (j : Json) : Bool :=
  (canonPointsFn (jsObjGet j "points")).all
    (fun pt => !(pt.x.isFiniteNum && pt.y.isFiniteNum))

theorem mem_intRange {x a b : ℤ} : x ∈ intRange a b ↔ a ≤ x ∧ x ≤ b := by
  unfold intRange
  rw [List.mem_map]
  constructor
  · rintro ⟨i, hi, rfl⟩
    rw [List.mem_range] at hi
    omega
  · rintro ⟨h1, h2⟩
    refine ⟨(x - a).toNat, ?_, ?_⟩
    · rw [List.mem_range]
      omega
    · omega

/-! Helper lemmas about the stable sort that models the `(t, rowid)`
index scan order. -/

theorem orderedInsert_eq_cons (a : Row) :
    ∀ l : List Row, (∀ x ∈ l, rowLE a x) → List.orderedInsert rowLE a l = a :: l
  | [], _ => rfl
  | b :: l, h => by
    simp only [List.orderedInsert, if_pos (h b (by simp))]

theorem filter_orderedInsert_pos (p : Row → Bool) (a : Row) (hpa : p a = true) :
    ∀ l : List Row, List.Sorted rowLE l →
      (List.orderedInsert rowLE a l).filter p =
        List.orderedInsert rowLE a (l.filter p)
  | [], _ => by simp [hpa]
  | b :: l, hs => by
    obtain ⟨hb, hl⟩ := List.sorted_cons.mp hs
    by_cases hab : rowLE a b
    · rw [List.orderedInsert_of_le _ _ hab]
      by_cases hpb : p b
      · simp [List.filter_cons, hpa, hpb, List.orderedInsert_of_le _ _ hab]
      · have hall : ∀ x ∈ l.filter p, rowLE a x := by
          intro x hx
          exact le_trans hab (hb x (List.mem_of_mem_filter hx))
        simp only [List.filter_cons, hpa, hpb, if_pos, if_neg, Bool.false_eq_true,
          ite_false, ite_true]
        rw [orderedInsert_eq_cons a (l.filter p) hall]
    · simp only [List.orderedInsert, if_neg hab]
      by_cases hpb : p b
      · simp only [List.filter_cons, hpb, ite_true,
          filter_orderedInsert_pos p a hpa l hl]
        rw [List.orderedInsert, if_neg hab]
      · simp [List.filter_cons, hpb, filter_orderedInsert_pos p a hpa l hl]

theorem filter_orderedInsert_neg (p : Row → Bool) (a : Row) (hpa : p a = false) :
    ∀ l : List Row, (List.orderedInsert rowLE a l).filter p = l.filter p
  | [] => by simp [hpa]
  | b :: l => by
    by_cases hab : rowLE a b
    · rw [List.orderedInsert_of_le _ _ hab]
      simp [List.filter_cons, hpa]
    · simp only [List.orderedInsert, if_neg hab]
      by_cases hpb : p b
      · simp [List.filter_cons, hpb, filter_orderedInsert_neg p a hpa l]
      · simp [List.filter_cons, hpb, filter_orderedInsert_neg p a hpa l]

theorem filter_insertionSort (p : Row → Bool) :
    ∀ l : List Row, (List.insertionSort rowLE l).filter p =
      List.insertionSort rowLE (l.filter p)
  | [] => rfl
  | a :: l => by
    by_cases hpa : p a
    · simp only [List.insertionSort, List.filter_cons, hpa, ite_true]
      rw [filter_orderedInsert_pos p a hpa _ (List.sorted_insertionSort rowLE l),
        filter_insertionSort p l]
    · simp only [List.insertionSort, List.filter_cons, hpa]
      rw [filter_orderedInsert_neg p a (by simpa using hpa),
        filter_insertionSort p l]
      simp

/-- C9: for every tile and every threshold, scan returns the rows in
non-decreasing `t` order, and scan_since returns exactly the rows of
scan whose `t` is strictly greater than the threshold, in the same
order. -/
theorem scan_sorted_and_since_filters (db : List Row) (z : JNum) (tx ty : ℚ)
    (t0 : ℤ) :
    (scan db z tx ty).Pairwise (fun a b => a.t ≤ b.t) ∧
    scanSince db z tx ty t0 = (scan db z tx ty).filter (fun r => t0 < r.t) := by
  constructor
  · exact List.sorted_insertionSort rowLE _
  · rw [scanSince, scan, filter_insertionSort]

/-- C8: a tilesRequest from a tiles session with more than 1000 tiles
elicits exactly one tileBatchDone frame carrying the request id and no
tileData frames, and an HTTP batch request with more than 500 tiles is
answered with status 400. -/
theorem batch_caps_enforced (db : List Row) (reqId : Option String) (z : JNum)
    (tiles : List (JNum × JNum)) (db2 : List Row) (z2 : JNum)
    (htiles : List (JNum × JNum))
    (h1 : tiles.length > 1000) (h2 : htiles.length > 500) :
    wsTilesRequest db (some Role.tiles) reqId z tiles = [.tileBatchDone reqId] ∧
    (tileBatchEndpoint db2 z2 htiles).status = 400 := by
  have h0 : tiles.length ≠ 0 := by omega
  have h0' : htiles.length ≠ 0 := by omega
  constructor
  · simp [wsTilesRequest, h0, h1]
  · simp [tileBatchEndpoint, h0', h2, BatchResp.status]

/-- Witness for C8 at a 1001-tile channel request and a 501-tile HTTP
request. -/
theorem batch_caps_enforced_witness :
    wsTilesRequest [] (some Role.tiles) none (.fin 0)
        (List.replicate 1001 (.fin 0, .fin 0)) = [.tileBatchDone none] ∧
    (tileBatchEndpoint [] (.fin 0)
        (List.replicate 501 (.fin 0, .fin 0))).status = 400 :=
  batch_caps_enforced [] none (.fin 0) _ [] (.fin 0) _
    (by rw [List.length_replicate]; omega)
    (by rw [List.length_replicate]; omega)

/-! Helper lemmas about the bounding-box computation. -/

theorem isFiniteNum_iff (v : JNum) : v.isFiniteNum = true ↔ ∃ q, v = .fin q := by
  cases v <;> simp [JNum.isFiniteNum]

theorem bboxOfPoints_acc_some (pts : List Point) :
    ∀ b : BBox, ∃ b', bboxOfPoints pts (some b) = some b' := by
  induction pts with
  | nil => exact fun b => ⟨b, rfl⟩
  | cons pt rest ih =>
    intro b
    cases hx : pt.x <;> cases hy : pt.y <;>
      simp only [bboxOfPoints, hx, hy, bboxMerge] <;> exact ih _

theorem bboxOfPoints_eq_none_iff (pts : List Point) :
    bboxOfPoints pts none = none ↔
      ∀ pt ∈ pts, (pt.x.isFiniteNum && pt.y.isFiniteNum) = false := by
  induction pts with
  | nil => simp [bboxOfPoints]
  | cons pt rest ih =>
    by_cases hfx : pt.x.isFiniteNum = true
    · by_cases hfy : pt.y.isFiniteNum = true
      · obtain ⟨x, hx⟩ := (isFiniteNum_iff _).mp hfx
        obtain ⟨y, hy⟩ := (isFiniteNum_iff _).mp hfy
        simp only [bboxOfPoints, hx, hy, bboxMerge]
        obtain ⟨b', hb'⟩ := bboxOfPoints_acc_some rest ⟨x, y, x, y⟩
        constructor
        · intro h
          exact absurd (hb'.symm.trans h) (by simp)
        · intro hall
          have := hall pt (by simp)
          rw [hx, hy] at this
          simp [JNum.isFiniteNum] at this
      · have hyv : pt.y.isFiniteNum = false := by
          simpa using hfy
        obtain ⟨x, hx⟩ := (isFiniteNum_iff _).mp hfx
        cases hy : pt.y with
        | fin q => rw [hy] at hyv; simp [JNum.isFiniteNum] at hyv
        | nan =>
          simp only [bboxOfPoints, hx, hy]
          rw [ih]
          simp [List.forall_mem_cons, hx, hy, JNum.isFiniteNum]
        | inf =>
          simp only [bboxOfPoints, hx, hy]
          rw [ih]
          simp [List.forall_mem_cons, hx, hy, JNum.isFiniteNum]
        | ninf =>
          simp only [bboxOfPoints, hx, hy]
          rw [ih]
          simp [List.forall_mem_cons, hx, hy, JNum.isFiniteNum]
    · have hxv : pt.x.isFiniteNum = false := by
        simpa using hfx
      cases hx : pt.x with
      | fin q => rw [hx] at hxv; simp [JNum.isFiniteNum] at hxv
      | nan =>
        cases hy : pt.y <;>
          · simp only [bboxOfPoints, hx, hy]
            rw [ih]
            simp [List.forall_mem_cons, hx, JNum.isFiniteNum]
      | inf =>
        cases hy : pt.y <;>
          · simp only [bboxOfPoints, hx, hy]
            rw [ih]
            simp [List.forall_mem_cons, hx, JNum.isFiniteNum]
      | ninf =>
        cases hy : pt.y <;>
          · simp only [bboxOfPoints, hx, hy]
            rw [ih]
            simp [List.forall_mem_cons, hx, JNum.isFiniteNum]

theorem bboxOfPoints_acc_minmax (pts : List Point) :
    ∀ b : BBox, b.minX ≤ b.maxX → b.minY ≤ b.maxY →
      ∀ bb : BBox, bboxOfPoints pts (some b) = some bb →
        bb.minX ≤ bb.maxX ∧ bb.minY ≤ bb.maxY := by
  induction pts with
  | nil =>
    intro b h1 h2 bb h
    cases h
    exact ⟨h1, h2⟩
  | cons pt rest ih =>
    intro b h1 h2 bb h
    cases hx : pt.x <;> cases hy : pt.y <;>
      simp only [bboxOfPoints, hx, hy, bboxMerge] at h
    case fin.fin x y =>
      refine ih _ ?_ ?_ bb h
      · exact le_trans (min_le_left _ _) (le_trans h1 (le_max_left _ _))
      · exact le_trans (min_le_left _ _) (le_trans h2 (le_max_left _ _))
    all_goals exact ih b h1 h2 bb h

theorem bboxOfPoints_none_minmax (pts : List Point) :
    ∀ bb : BBox, bboxOfPoints pts none = some bb →
      bb.minX ≤ bb.maxX ∧ bb.minY ≤ bb.maxY := by
  induction pts with
  | nil =>
    intro bb h
    cases h
  | cons pt rest ih =>
    intro bb h
    cases hx : pt.x <;> cases hy : pt.y <;>
      simp only [bboxOfPoints, hx, hy, bboxMerge] at h
    case fin.fin x y =>
      exact bboxOfPoints_acc_minmax rest ⟨x, y, x, y⟩ (le_refl x) (le_refl y) bb h
    all_goals exact ih bb h

theorem paddingOf_ge_two (size : ℚ) : 2 ≤ paddingOf size := by
  unfold paddingOf clampQ
  have h : (1 : ℚ) ≤ max 1 (min 128 (if size = 0 then 12 else size)) :=
    le_max_left _ _
  linarith

theorem paddingOf_of_ne_zero (size : ℚ) (h : size ≠ 0) :
    paddingOf size = clampQ size 1 128 * 2 := by
  unfold paddingOf
  rw [if_neg h]

/-- Membership in the tile list computed by appendStrokeToTiles, for a
stroke whose bounding box exists. -/
theorem append_tiles_spec (db : List Row) (s : Stroke) (insertOk : Bool)
    (now : ℤ) (bb : BBox) (hbb : bboxOfPoints s.points none = some bb)
    (tx ty : ℤ) :
    (tx, ty) ∈ (appendStrokeToTiles db s insertOk now).tiles ↔
      (⌊(bb.minX - paddingOf s.size) / TILE_SIZE⌋ ≤ tx ∧
       tx ≤ ⌊(bb.maxX + paddingOf s.size - 1) / TILE_SIZE⌋ ∧
       ⌊(bb.minY - paddingOf s.size) / TILE_SIZE⌋ ≤ ty ∧
       ty ≤ ⌊(bb.maxY + paddingOf s.size - 1) / TILE_SIZE⌋) := by
  simp only [appendStrokeToTiles, hbb]
  simp only [List.mem_flatMap, List.mem_map, mem_intRange, Prod.mk.injEq]
  constructor
  · rintro ⟨ty', ⟨hy1, hy2⟩, tx', ⟨hx1, hx2⟩, rfl, rfl⟩
    exact ⟨hx1, hx2, hy1, hy2⟩
  · rintro ⟨hx1, hx2, hy1, hy2⟩
    exact ⟨ty, ⟨hy1, hy2⟩, tx, ⟨hx1, hx2⟩, rfl, rfl⟩

/-- The tile list is non-empty whenever the bounding box exists. -/
theorem append_tiles_ne_nil (db : List Row) (s : Stroke) (insertOk : Bool)
    (now : ℤ) (bb : BBox) (hbb : bboxOfPoints s.points none = some bb) :
    (appendStrokeToTiles db s insertOk now).tiles ≠ [] := by
  obtain ⟨hx, hy⟩ := bboxOfPoints_none_minmax s.points bb hbb
  have hpad := paddingOf_ge_two s.size
  have hS : (0 : ℚ) < TILE_SIZE := by norm_num [TILE_SIZE]
  have hmem := (append_tiles_spec db s insertOk now bb hbb
      ⌊(bb.minX - paddingOf s.size) / TILE_SIZE⌋
      ⌊(bb.minY - paddingOf s.size) / TILE_SIZE⌋).mpr ?_
  · intro hnil
    rw [hnil] at hmem
    exact absurd hmem (List.not_mem_nil _)
  · refine ⟨le_refl _, ?_, le_refl _, ?_⟩
    · apply Int.floor_le_floor
      rw [div_le_div_iff_of_pos_right hS]
      linarith
    · apply Int.floor_le_floor
      rw [div_le_div_iff_of_pos_right hS]
      linarith

/-- C5: for a stroke with at least one finite point (its bounding box
exists) and a non-zero size, the set of tiles receiving a row is exactly
the inclusive grid range determined by the pad-inflated bounding box,
with pad = clamp(size, 1, 128) * 2 and S = TILE_SIZE = 1024; one row per
tile is appended to the store. -/
theorem footprint_is_padded_bbox_range (db : List Row) (s : Stroke) (now : ℤ)
    (bb : BBox) (hbb : bboxOfPoints s.points none = some bb)
    (hsz : s.size ≠ 0) (tx ty : ℤ) :
    ((tx, ty) ∈ (appendStrokeToTiles db s true now).tiles ↔
      (⌊(bb.minX - clampQ s.size 1 128 * 2) / TILE_SIZE⌋ ≤ tx ∧
       tx ≤ ⌊(bb.maxX + clampQ s.size 1 128 * 2 - 1) / TILE_SIZE⌋ ∧
       ⌊(bb.minY - clampQ s.size 1 128 * 2) / TILE_SIZE⌋ ≤ ty ∧
       ty ≤ ⌊(bb.maxY + clampQ s.size 1 128 * 2 - 1) / TILE_SIZE⌋)) ∧
    (appendStrokeToTiles db s true now).db =
      enforceDbSizeLimit db ++
        (appendStrokeToTiles db s true now).tiles.map (fun tile =>
          ({ z := s.z, tx := tile.1, ty := tile.2, t := tValOf s.t now,
             id := s.id, bytes := s.bytes, stroke := s } : Row)) := by
  constructor
  · rw [← paddingOf_of_ne_zero s.size hsz]
    exact append_tiles_spec db s true now bb hbb tx ty
  · simp only [appendStrokeToTiles, hbb, if_pos]

/-- Witness for C5: the two-point stroke from the test suite with size 6
(pad 12) covers tile (0, 0). -/
theorem footprint_witness :
    ((0, 0) : ℤ × ℤ) ∈
      (appendStrokeToTiles []
        { id := "s5", userId := "u", color := "#f00", size := 6, opacity := 1,
          points := [⟨.fin 10, .fin 10, .fin 0⟩, ⟨.fin 100, .fin 10, .fin 0⟩],
          z := .fin 0, t := 3, erase := false, bytes := 10 } true 0).tiles :=
  (footprint_is_padded_bbox_range [] _ 0 ⟨10, 10, 100, 10⟩ (by decide)
    (by norm_num) 0 0).1.mpr
    (by norm_num [clampQ, min_def, max_def, TILE_SIZE, Rat.floor_def])

/-- C4 (amended): a peer stroke with at least one finite point yields a
non-empty tile list; a peer stroke with no finite points yields zero
tile rows and leaves the store unchanged, but -- contrary to the
original claim -- it is still broadcast: every client other than the
one named by the client-supplied payload id receives the stroke frame. -/
theorem finite_points_footprint_and_broadcast (db : List Row)
    (clients : List String) (senderSid : String) (payload : StrokePayload)
    (now : ℤ) (freshId : String) (bytes : ℕ) (insertOk : Bool) :
    ((∃ q ∈ payload.points, q.1.isFiniteNum = true ∧ q.2.isFiniteNum = true) →
      (wsStroke db clients senderSid payload now freshId bytes insertOk).tiles ≠ []) ∧
    ((∀ q ∈ payload.points, (q.1.isFiniteNum && q.2.isFiniteNum) = false) →
      (wsStroke db clients senderSid payload now freshId bytes insertOk).tiles = [] ∧
      (wsStroke db clients senderSid payload now freshId bytes insertOk).db = db ∧
      ∀ c ∈ clients, (∀ i, payload.id = some i → c ≠ i) →
        c ∈ (wsStroke db clients senderSid payload now freshId bytes insertOk).recipients) := by
  constructor
  · rintro ⟨q, hq, hqx, hqy⟩
    show (appendStrokeToTiles db
      (canonPayloadStroke payload senderSid freshId now bytes) insertOk now).tiles ≠ []
    have hmem : (⟨q.1, q.2, .fin 0⟩ : Point) ∈
        (canonPayloadStroke payload senderSid freshId now bytes).points :=
      List.mem_map_of_mem _ hq
    cases hbbox : bboxOfPoints
        (canonPayloadStroke payload senderSid freshId now bytes).points none with
    | none =>
      have := (bboxOfPoints_eq_none_iff _).mp hbbox _ hmem
      simp [hqx, hqy] at this
    | some bb =>
      exact append_tiles_ne_nil db _ insertOk now bb hbbox
  · intro h2
    have hnone : bboxOfPoints
        (canonPayloadStroke payload senderSid freshId now bytes).points none = none := by
      apply (bboxOfPoints_eq_none_iff _).mpr
      intro pt hpt
      obtain ⟨q, hq, rfl⟩ := List.mem_map.mp hpt
      exact h2 q hq
    refine ⟨?_, ?_, ?_⟩
    · show (appendStrokeToTiles db
        (canonPayloadStroke payload senderSid freshId now bytes) insertOk now).tiles = []
      simp only [appendStrokeToTiles, hnone]
    · show (appendStrokeToTiles db
        (canonPayloadStroke payload senderSid freshId now bytes) insertOk now).db = db
      simp only [appendStrokeToTiles, hnone]
    · intro c hc hne
      show c ∈ broadcastRecipients clients payload.id
      apply List.mem_filter.mpr
      refine ⟨hc, ?_⟩
      cases hid : payload.id with
      | none => rfl
      | some i =>
        simpa using hne i hid

/-- Counterexample for C4 as stated: a peer stroke with an empty point
list produces zero tile rows, yet the stroke frame is still broadcast --
including to both connected peer sessions. -/
theorem empty_stroke_still_broadcast :
    (wsStroke [] ["A", "B"] "A"
      { id := some "s4e", userId := none, color := none, size := .fin 6,
        opacity := .fin 1, erase := false, points := [] } 5 "fr" 10 true).tiles = [] ∧
    (wsStroke [] ["A", "B"] "A"
      { id := some "s4e", userId := none, color := none, size := .fin 6,
        opacity := .fin 1, erase := false, points := [] } 5 "fr" 10 true).db = [] ∧
    (wsStroke [] ["A", "B"] "A"
      { id := some "s4e", userId := none, color := none, size := .fin 6,
        opacity := .fin 1, erase := false, points := [] } 5 "fr" 10 true).recipients =
      ["A", "B"] := by
  refine ⟨rfl, rfl, rfl⟩

/-- Witness for the amended C4 at one stroke with a finite point and one
with no points. -/
theorem finite_points_footprint_witness :
    (wsStroke [] ["A", "B"] "A"
      { id := some "s4", userId := none, color := none, size := .fin 6,
        opacity := .fin 1, erase := false,
        points := [(.fin 10, .fin 10)] } 5 "fr" 10 true).tiles ≠ [] ∧
    "B" ∈ (wsStroke [] ["A", "B"] "A"
      { id := some "s4e", userId := none, color := none, size := .fin 6,
        opacity := .fin 1, erase := false, points := [] } 5 "fr" 10 true).recipients :=
  ⟨(finite_points_footprint_and_broadcast [] ["A", "B"] "A" _ 5 "fr" 10 true).1
      (by decide),
    ((finite_points_footprint_and_broadcast [] ["A", "B"] "A" _ 5 "fr" 10 true).2
      (by decide)).2.2 "B" (by decide)
      (by intro i hi; cases hi; decide)⟩

/-- C1 (code bug): the stroke branch passes the client-supplied stroke
payload id -- not the sender session id -- as the broadcast exclusion
key.  With two identified peers A and B, a stroke from A whose stroke id
is "s1" is delivered to both A and B: the relay hands the stroke frame
back to the originating session, contradicting P5 of the specification
and the intent of the `excludeId` parameter (which the presence and
close branches key by session id). -/
theorem stroke_broadcast_echoes_sender :
    (wsStroke [] ["A", "B"] "A"
      { id := some "s1", userId := none, color := none, size := .fin 6,
        opacity := .fin 1, erase := false,
        points := [(.fin 10, .fin 10)] } 5 "fresh" 10 true).recipients =
      ["A", "B"] ∧
    "A" ∈ (wsStroke [] ["A", "B"] "A"
      { id := some "s1", userId := none, color := none, size := .fin 6,
        opacity := .fin 1, erase := false,
        points := [(.fin 10, .fin 10)] } 5 "fresh" 10 true).recipients := by
  refine ⟨rfl, ?_⟩
  rw [show (wsStroke [] ["A", "B"] "A"
      { id := some "s1", userId := none, color := none, size := .fin 6,
        opacity := .fin 1, erase := false,
        points := [(.fin 10, .fin 10)] } 5 "fresh" 10 true).recipients =
      ["A", "B"] from rfl]
  decide

/-- C2 (amended): a failed transactional insert changes nothing that the
caller or the peers observe: the same (non-empty, when the bounding box
exists) tile list is returned, the store keeps only the effect of the
eviction check, the stroke is still relayed to the same recipients, and
POST /api/stroke still answers with the same response -- in particular
`ok: true` -- as on a successful insert. -/
theorem insert_failure_is_best_effort (db : List Row) (s : Stroke) (now : ℤ)
    (clients : List String) (senderSid : String) (payload : StrokePayload)
    (freshId : String) (bytes : ℕ) (body : Option Json) (fid2 : String)
    (now2 : ℤ) (bytes2 : ℕ) (db2 : List Row) :
    (appendStrokeToTiles db s false now).tiles =
      (appendStrokeToTiles db s true now).tiles ∧
    (appendStrokeToTiles db s false now).db =
      (if (bboxOfPoints s.points none).isSome then enforceDbSizeLimit db else db) ∧
    (wsStroke db clients senderSid payload now freshId bytes false).recipients =
      (wsStroke db clients senderSid payload now freshId bytes true).recipients ∧
    (strokeEndpoint body fid2 now2 bytes2 db2 false).1 =
      (strokeEndpoint body fid2 now2 bytes2 db2 true).1 := by
  refine ⟨?_, ?_, rfl, ?_⟩
  · cases hbb : bboxOfPoints s.points none <;>
      simp only [appendStrokeToTiles, hbb]
  · cases hbb : bboxOfPoints s.points none <;>
      simp only [appendStrokeToTiles, hbb, Option.isSome] <;> simp
  · cases body with
    | none => rfl
    | some j =>
      cases hc : canonicalizeStroke j fid2 now2 bytes2 <;>
        simp only [strokeEndpoint, hc]

/-- Counterexample for C2 as stated: with the transactional insert
failing, the ingest still returns a non-empty tile list (not the empty
set), POST /api/stroke still acknowledges with ok: true and status 200,
and the peer-channel stroke is still relayed to a non-empty recipient
set. -/
theorem insert_failure_counterexample :
    (appendStrokeToTiles []
      { id := "s2", userId := "u1", color := "#f00", size := 6, opacity := 1,
        points := [⟨.fin 10, .fin 10, .fin 0⟩], z := .fin 0, t := 1,
        erase := false, bytes := 50 } false 0).tiles ≠ [] ∧
    (strokeEndpoint
        (some (.obj [("points", .arr [.obj [("x", .num 10), ("y", .num 10)]])]))
        "fresh" 9 5 [] false).1.okFlag = true ∧
    (strokeEndpoint
        (some (.obj [("points", .arr [.obj [("x", .num 10), ("y", .num 10)]])]))
        "fresh" 9 5 [] false).1.status = 200 ∧
    (wsStroke [] ["A", "B"] "A"
      { id := some "s2", userId := none, color := none, size := .fin 6,
        opacity := .fin 1, erase := false,
        points := [(.fin 10, .fin 10)] } 5 "fresh" 10 false).recipients ≠ [] := by
  refine ⟨append_tiles_ne_nil [] _ false 0 ⟨10, 10, 10, 10⟩ rfl, rfl, rfl, by decide⟩

/-! Helper lemmas for the eviction policy. -/

theorem minT_eq_none (db : List Row) (h : minT db = none) : db = [] := by
  cases db with
  | nil => rfl
  | cons r rs =>
    rw [minT] at h
    cases hm : minT rs <;> rw [hm] at h <;> cases h

theorem minT_spec (db : List Row) (m : ℤ) (h : minT db = some m) :
    (∃ r ∈ db, r.t = m) ∧ ∀ r ∈ db, m ≤ r.t := by
  induction db generalizing m with
  | nil => cases h
  | cons r rs ih =>
    rw [minT] at h
    cases hm : minT rs with
    | none =>
      rw [hm] at h
      cases h
      have hrs := minT_eq_none rs hm
      subst hrs
      exact ⟨⟨r, by simp⟩, by simp⟩
    | some m' =>
      rw [hm] at h
      cases h
      obtain ⟨⟨r0, hr0, hr0t⟩, hmin⟩ := ih m' hm
      constructor
      · rcases le_total r.t m' with hle | hle
        · exact ⟨r, by simp, by simp [min_eq_left hle]⟩
        · exact ⟨r0, by simp [hr0], by rw [hr0t, min_eq_right hle]⟩
      · intro q hq
        rcases List.mem_cons.mp hq with rfl | hq'
        · exact min_le_left _ _
        · exact le_trans (min_le_right _ _) (hmin q hq')

theorem perm_cons_eraseP (p : Row → Bool) :
    ∀ (l : List Row) (v : Row), l.find? p = some v → l.Perm (v :: l.eraseP p)
  | [], v, h => by cases h
  | b :: l, v, h => by
    by_cases hpb : p b
    · rw [List.find?_cons_of_pos l hpb] at h
      cases h
      rw [List.eraseP_cons_of_pos hpb]
    · rw [List.find?_cons_of_neg l hpb] at h
      rw [List.eraseP_cons_of_neg (by simpa using hpb)]
      exact ((perm_cons_eraseP p l v h).cons b).trans (List.Perm.swap v b _)

theorem oldestRow_spec (db : List Row) (hne : db ≠ []) :
    ∃ v, oldestRow db = some v ∧ v ∈ db ∧ (∀ r ∈ db, v.t ≤ r.t) ∧
      db.Perm (v :: removeOldestOne db) := by
  obtain ⟨m, hm⟩ : ∃ m, minT db = some m := by
    cases h : minT db with
    | none => exact absurd (minT_eq_none db h) hne
    | some m => exact ⟨m, rfl⟩
  obtain ⟨⟨r0, hr0, hr0t⟩, hmin⟩ := minT_spec db m hm
  obtain ⟨v, hv⟩ : ∃ v, db.find? (fun r => r.t == m) = some v := by
    have : (db.find? (fun r => r.t == m)).isSome := by
      rw [List.find?_isSome]
      exact ⟨r0, hr0, by simp [hr0t]⟩
    exact Option.isSome_iff_exists.mp this
  have hvt : v.t = m := by simpa using List.find?_some hv
  refine ⟨v, ?_, List.mem_of_find?_eq_some hv, ?_, ?_⟩
  · rw [oldestRow, hm]
    exact hv
  · intro r hr
    rw [hvt]
    exact hmin r hr
  · rw [removeOldestOne, hm]
    exact perm_cons_eraseP _ db v hv

theorem deleteOldest_spec (n : ℕ) :
    ∀ db : List Row, n ≤ db.length →
      (oldestVictims db n).length = n ∧
      db.Perm (oldestVictims db n ++ deleteOldest db n) ∧
      (∀ v ∈ oldestVictims db n, ∀ k ∈ deleteOldest db n, v.t ≤ k.t) := by
  induction n with
  | zero =>
    intro db _
    exact ⟨rfl, by simp [oldestVictims, deleteOldest], by simp [oldestVictims]⟩
  | succ n ih =>
    intro db hn
    have hne : db ≠ [] := by
      intro h
      subst h
      simp at hn
    obtain ⟨v, hv, hvmem, hvmin, hperm⟩ := oldestRow_spec db hne
    have hlen : (removeOldestOne db).length + 1 = db.length := by
      have h := hperm.length_eq
      simp at h
      omega
    obtain ⟨ih1, ih2, ih3⟩ := ih (removeOldestOne db) (by omega)
    have hvict : oldestVictims db (n + 1) =
        v :: oldestVictims (removeOldestOne db) n := by
      rw [oldestVictims, hv]
    have hdel : deleteOldest db (n + 1) =
        deleteOldest (removeOldestOne db) n := rfl
    refine ⟨?_, ?_, ?_⟩
    · rw [hvict]
      simp [ih1]
    · rw [hvict, hdel, List.cons_append]
      exact hperm.trans (ih2.cons v)
    · rw [hvict, hdel]
      intro w hw k hk
      rcases List.mem_cons.mp hw with rfl | hw'
      · have hk1 : k ∈ removeOldestOne db :=
          ih2.mem_iff.mpr (List.mem_append_right _ hk)
        exact hvmin k (hperm.mem_iff.mpr (List.mem_cons_of_mem _ hk1))
      · exact ih3 w hw' k hk

/-- C3 (amended): when the size check at the start of an ingest fires
(store size at least MAX_DB_SIZE_BYTES and store non-empty), the
coordinator deletes exactly max(1, floor(0.1 x row_count)) rows -- not
ceil(0.1 x row_count) -- and the deleted rows are globally oldest: every
deleted rows all carry timestamps at most those of the surviving rows.
The store is then
compacted (VACUUM), which does not change the surviving rows. -/
theorem eviction_deletes_tenth_oldest (db : List Row)
    (hsize : MAX_DB_SIZE_BYTES ≤ totalBytes db) (hne : 0 < db.length) :
    (oldestVictims db (max 1 (db.length / 10))).length =
      max 1 (db.length / 10) ∧
    db.Perm (oldestVictims db (max 1 (db.length / 10)) ++
      enforceDbSizeLimit db) ∧
    ∀ v ∈ oldestVictims db (max 1 (db.length / 10)),
      ∀ k ∈ enforceDbSizeLimit db, v.t ≤ k.t := by
  have henf : enforceDbSizeLimit db = deleteOldest db (max 1 (db.length / 10)) :=
    if_pos ⟨hsize, hne⟩
  rw [henf]
  exact deleteOldest_spec _ db (by omega)

/-- Counterexample for C3 as stated: on a store of 15 rows over the size
limit, the code deletes max(1, floor(1.5)) = 1 row, leaving 14, whereas
the claimed ceil(0.1 x 15) = 2 deletions would leave 13. -/
theorem eviction_count_counterexample :
    MAX_DB_SIZE_BYTES ≤ totalBytes evictionProbeDb ∧
    evictionProbeDb.length = 15 ∧
    (enforceDbSizeLimit evictionProbeDb).length = 14 ∧
    evictionProbeDb.length - (⌈(0.1 : ℚ) * 15⌉).toNat = 13 := by
  refine ⟨by decide, by decide, by decide, ?_⟩
  rw [show (0.1 : ℚ) * 15 = 3 / 2 by norm_num]
  rw [show ((⌈(3 / 2 : ℚ)⌉ : ℤ)) = 2 by rw [Int.ceil_eq_iff]; norm_num]
  decide

/-- Witness for the amended C3 on a concrete 2-row store at the limit. -/
theorem eviction_deletes_tenth_oldest_witness :
    (oldestVictims evictionWitnessDb (max 1 (evictionWitnessDb.length / 10))).length =
      max 1 (evictionWitnessDb.length / 10) ∧
    evictionWitnessDb.Perm (oldestVictims evictionWitnessDb
      (max 1 (evictionWitnessDb.length / 10)) ++ enforceDbSizeLimit evictionWitnessDb) ∧
    ∀ v ∈ oldestVictims evictionWitnessDb (max 1 (evictionWitnessDb.length / 10)),
      ∀ k ∈ enforceDbSizeLimit evictionWitnessDb, v.t ≤ k.t :=
  eviction_deletes_tenth_oldest evictionWitnessDb (by decide) (by decide)

/-! Helper lemmas for the store size accounting. -/

theorem totalBytes_append (a b : List Row) :
    totalBytes (a ++ b) = totalBytes a + totalBytes b := by
  simp [totalBytes]

theorem sum_map_const_nat {α : Type} (l : List α) (c : ℕ) :
    (l.map (fun _ => c)).sum = l.length * c := by
  induction l with
  | nil => simp
  | cons a l ih => simp [ih, Nat.succ_mul, Nat.add_comm]

/-- C7 (amended): the size bound is checked only at the start of an
ingest.  After an ingest whose bounding box exists, the store size
equals the size after the eviction check plus one payload per tile of
the footprint; when the store was below MAX_DB_SIZE_BYTES at the check,
the check does nothing, so the size after the ingest may exceed the
limit. -/
theorem ingest_size_equation (db : List Row) (s : Stroke) (now : ℤ)
    (hbb : (bboxOfPoints s.points none).isSome = true) :
    totalBytes (appendStrokeToTiles db s true now).db =
      totalBytes (enforceDbSizeLimit db) +
        (appendStrokeToTiles db s true now).tiles.length * s.bytes ∧
    (totalBytes db < MAX_DB_SIZE_BYTES → enforceDbSizeLimit db = db) := by
  constructor
  · obtain ⟨bb, hbb'⟩ := Option.isSome_iff_exists.mp hbb
    simp only [appendStrokeToTiles, hbb', if_true]
    rw [totalBytes_append]
    congr 1
    rw [totalBytes, List.map_map]
    rw [show (Row.bytes ∘ fun tile : ℤ × ℤ =>
        ({ z := s.z, tx := tile.1, ty := tile.2, t := tValOf s.t now,
           id := s.id, bytes := s.bytes, stroke := s } : Row)) =
        (fun _ : ℤ × ℤ => s.bytes) from rfl]
    exact sum_map_const_nat _ _
  · intro hlt
    rw [enforceDbSizeLimit, if_neg]
    rintro ⟨h1, _⟩
    omega

/-- Counterexample for C7 as stated: starting from the empty store
(size 0, within the limit), a single ingest leaves the store strictly
larger than MAX_DB_SIZE_BYTES, because the size check runs only before
the insert and finds the store within bounds. -/
theorem store_size_exceeds_limit :
    totalBytes ([] : List Row) < MAX_DB_SIZE_BYTES ∧
    MAX_DB_SIZE_BYTES < totalBytes (appendStrokeToTiles [] oversizeStroke true 0).db := by
  constructor
  · decide
  · have heq := (ingest_size_equation [] oversizeStroke 0 rfl).1
    have hne := append_tiles_ne_nil [] oversizeStroke true 0 ⟨0, 0, 0, 0⟩ rfl
    have hlen : 1 ≤ (appendStrokeToTiles [] oversizeStroke true 0).tiles.length := by
      cases h : (appendStrokeToTiles [] oversizeStroke true 0).tiles with
      | nil => exact absurd h hne
      | cons a l => simp [h]
    rw [heq]
    have hmul : oversizeStroke.bytes ≤
        (appendStrokeToTiles [] oversizeStroke true 0).tiles.length *
          oversizeStroke.bytes :=
      Nat.le_mul_of_pos_left _ (by omega)
    have hb : oversizeStroke.bytes = 1073741825 := rfl
    have henf : totalBytes (enforceDbSizeLimit ([] : List Row)) = 0 := rfl
    rw [henf, hb] at *
    have : MAX_DB_SIZE_BYTES = 1073741824 := rfl
    omega

/-- Witness for the amended C7 at the empty store. -/
theorem ingest_size_equation_witness :
    totalBytes (appendStrokeToTiles [] oversizeStroke true 0).db =
      totalBytes (enforceDbSizeLimit []) +
        (appendStrokeToTiles [] oversizeStroke true 0).tiles.length *
          oversizeStroke.bytes ∧
    (totalBytes ([] : List Row) < MAX_DB_SIZE_BYTES →
      enforceDbSizeLimit [] = []) :=
  ingest_size_equation [] oversizeStroke 0 rfl

theorem canonPoint_ok (p : Json) (hp : p.isNull = false) :
    canonPoint p = .ok (canonPointFn p) := by
  simp [canonPoint, hp]

theorem mapM_canonPoint_ok (l : List Json) (h : ∀ p ∈ l, p.isNull = false) :
    l.mapM canonPoint = Except.ok (l.map canonPointFn) := by
  induction l with
  | nil => rfl
  | cons p l ih =>
    rw [List.mapM_cons, canonPoint_ok p (h p (by simp))]
    rw [ih (fun q hq => h q (by simp [hq]))]
    rfl

theorem canonPoints_ok (j : Json) (hsafe : pointsSafeB j = true) :
    canonPoints (jsObjGet j "points") =
      .ok (canonPointsFn (jsObjGet j "points")) := by
  unfold pointsSafeB at hsafe
  unfold canonPoints canonPointsFn
  cases hv : jsObjGet j "points" with
  | none => rfl
  | some jp =>
    cases jp with
    | arr l =>
      rw [hv] at hsafe
      refine mapM_canonPoint_ok l ?_
      intro p hp
      have := List.all_eq_true.mp hsafe p hp
      simpa using this
    | null => rfl
    | bool b => rfl
    | num q => rfl
    | str s => rfl
    | obj f => rfl

theorem canonicalizeStroke_ok (j : Json) (freshId : String) (now : ℤ)
    (bytes : ℕ) (hnn : j.isNull = false) (hsafe : pointsSafeB j = true) :
    canonicalizeStroke j freshId now bytes =
      .ok (canonStrokeFn j freshId now bytes) := by
  unfold canonicalizeStroke
  simp only [jsGetField, hnn, Bool.false_eq_true, if_false]
  rw [canonPoints_ok j hsafe]
  rfl

/-- C6 (amended): canonicalization coerces every raw point with
Number() but retains non-finite points: the canonical points list has
exactly one entry per raw array element, each the Number-coercion of
that element; nothing is dropped. -/
theorem canonicalization_retains_all_points (j : Json) (freshId : String)
    (now : ℤ) (bytes : ℕ) (l : List Json)
    (hnn : j.isNull = false)
    (hpts : jsObjGet j "points" = some (.arr l))
    (hel : ∀ p ∈ l, p.isNull = false) :
    canonicalizeStroke j freshId now bytes =
      .ok (canonStrokeFn j freshId now bytes) ∧
    (canonStrokeFn j freshId now bytes).points = l.map canonPointFn ∧
    (canonStrokeFn j freshId now bytes).points.length = l.length := by
  have hsafe : pointsSafeB j = true := by
    unfold pointsSafeB
    rw [hpts]
    exact List.all_eq_true.mpr (fun p hp => by simp [hel p hp])
  refine ⟨canonicalizeStroke_ok j freshId now bytes hnn hsafe, ?_, ?_⟩
  · show canonPointsFn (jsObjGet j "points") = l.map canonPointFn
    rw [hpts]
    rfl
  · show (canonPointsFn (jsObjGet j "points")).length = l.length
    rw [hpts]
    exact List.length_map _ _

/-- Counterexample for C6 as stated: a submitted point whose x is
missing (hence Number(undefined) = NaN, non-finite) is not dropped by
canonicalization; it is kept, coerced, in the canonical stroke that is
persisted and broadcast. -/
theorem nonfinite_point_retained :
    canonicalizeStroke (.obj [("points", .arr [.obj [("y", .num 5)]])])
        "fresh" 7 3 =
      .ok { id := "fresh", userId := "", color := "#000000", size := 12,
            opacity := 1, points := [⟨.nan, .fin 5, .fin 0⟩], z := .fin 0,
            t := 7, erase := false, bytes := 3 } ∧
    JNum.nan.isFiniteNum = false :=
  ⟨rfl, rfl⟩

/-- Witness for the amended C6 at the one-point body with a missing x. -/
theorem canonicalization_retains_witness :
    canonicalizeStroke (.obj [("points", .arr [.obj [("y", .num 5)]])])
        "fresh" 7 3 =
      .ok (canonStrokeFn (.obj [("points", .arr [.obj [("y", .num 5)]])])
        "fresh" 7 3) ∧
    (canonStrokeFn (.obj [("points", .arr [.obj [("y", .num 5)]])])
        "fresh" 7 3).points = [Json.obj [("y", .num 5)]].map canonPointFn ∧
    (canonStrokeFn (.obj [("points", .arr [.obj [("y", .num 5)]])])
        "fresh" 7 3).points.length = [Json.obj [("y", .num 5)]].length :=
  canonicalization_retains_all_points _ "fresh" 7 3 [.obj [("y", .num 5)]]
    rfl rfl (by decide)

/-- C10 (amended): every syntactically valid JSON body that is not the
literal null and whose points array contains no null element is
answered 200 with ok: true; when the canonical points contain no finite
point (missing, empty, or entirely non-finite points), zero tile rows
are persisted.  (A null body, or a null element inside points, throws a
TypeError that the handler catches, answering 400 like a parse
failure.) -/
theorem stroke_endpoint_responds_ok (j : Json) (freshId : String) (now : ℤ)
    (bytes : ℕ) (db : List Row) (insertOk : Bool)
    (hnn : j.isNull = false) (hsafe : pointsSafeB j = true) :
    (strokeEndpoint (some j) freshId now bytes db insertOk).1.status = 200 ∧
    (strokeEndpoint (some j) freshId now bytes db insertOk).1.okFlag = true ∧
    (pointsNoFiniteB j = true →
      (strokeEndpoint (some j) freshId now bytes db insertOk).2 = db) := by
  have hok := canonicalizeStroke_ok j freshId now bytes hnn hsafe
  refine ⟨?_, ?_, ?_⟩
  · simp only [strokeEndpoint, hok]
    rfl
  · simp only [strokeEndpoint, hok]
    rfl
  · intro hnf
    simp only [strokeEndpoint, hok]
    have hnone : bboxOfPoints (canonStrokeFn j freshId now bytes).points none =
        none := by
      apply (bboxOfPoints_eq_none_iff _).mpr
      intro pt hpt
      have hall := List.all_eq_true.mp hnf pt hpt
      revert hall
      cases pt.x.isFiniteNum && pt.y.isFiniteNum <;> simp
    show (appendStrokeToTiles db (canonStrokeFn j freshId now bytes)
      insertOk now).db = db
    simp only [appendStrokeToTiles, hnone]

/-- Counterexample for C10 as stated: the body `null` is syntactically
valid JSON, yet the endpoint answers 400 (the property access on null
throws a TypeError caught by the invalid-json handler), not 200 with
ok: true. -/
theorem null_body_rejected :
    (strokeEndpoint (some Json.null) "fresh" 7 3 [] true).1.status = 400 ∧
    (strokeEndpoint (some Json.null) "fresh" 7 3 [] true).1.okFlag = false :=
  ⟨rfl, rfl⟩

/-- Witness for the amended C10 at the empty-object body (points
missing): 200, ok, and no rows persisted. -/
theorem stroke_endpoint_responds_ok_witness :
    (strokeEndpoint (some (Json.obj [])) "fr" 7 3 [] true).1.status = 200 ∧
    (strokeEndpoint (some (Json.obj [])) "fr" 7 3 [] true).1.okFlag = true ∧
    (strokeEndpoint (some (Json.obj [])) "fr" 7 3 [] true).2 = [] :=
  have h := stroke_endpoint_responds_ok (Json.obj []) "fr" 7 3 [] true rfl rfl
  ⟨h.1, h.2.1, h.2.2 rfl⟩
